import Mathlib

/-!
Verification development for the android_transcribe_app native core.

The Rust sources are shallowly embedded:
* `src/src/subtitle.rs` — the live-caption windower (`pushAudio`) and the
  streaming transcription worker loop (`initNative`'s spawned thread);
* `src/src/engine.rs` — the load coordinator (`ensure_loaded`, `do_load`),
  embedded as an interleaving small-step system over explicit thread states;
* `src/src/main_activity.rs` — the `initNative` loader thread, which loads
  outside the coordinator;
* `src/src/ime.rs` — the `stopRecording` bounded wait loop;
* `src/src/voice_session.rs` — `stop_recording`'s synchronous part.

Numeric conventions: Rust `f32`/`f64` sample values and times are embedded
as exact rationals (`ℚ`).  Every comparison proved or refuted below is far
from any binary rounding boundary and has the same truth value over `f64`
as over `ℚ`.  The RMS gate `rms > 0.002` with `rms = sqrt(sum_sq/len)` is
embedded as its square `sum_sq/len > 0.002^2`, which is equivalent for the
non-negative operand (`sqrt` is monotone); division by a zero length gives
`0` in `ℚ` and `NaN` in `f64`, and in both cases the gate is not taken.
-/

namespace Transcribe

/-! ## Streaming worker (src/src/subtitle.rs, worker thread in initNative) -/

/-- A timed segment returned by the engine (`transcribe_rs` segment):
`{ text, start, end }`, times relative to the window start.  The Rust field
`end` is a Lean keyword, embedded as `end_`. -/
structure Seg where
  text : String
  start : ℚ
  end_ : ℚ
deriving DecidableEq

/-- Result of `transcribe_samples`: full text plus optional timed segments. -/
structure TResult where
  text : String
  segments : Option (List Seg)
deriving DecidableEq

/-- One queue item as seen by the worker: the window's absolute start time and
the transcription outcome.  `result = none` covers both "engine not loaded"
(the worker skips the window) and `transcribe_samples` returning `Err`
(the `if let Ok(r)` does not fire): in either case the window is consumed
with no state change. -/
structure WindowIn where
  startTime : ℚ
  result : Option TResult
deriving DecidableEq

/-- The dedup keep test from subtitle.rs line 81:
`abs_start >= last_committed_end - 0.05`. -/
def keepSeg (lastCommittedEnd startTime : ℚ) (s : Seg) : Bool :=
  decide (startTime + s.start ≥ lastCommittedEnd - 5/100)

/-- The worker's per-segment fold from subtitle.rs lines 73–91: accumulates
`(new_text, max_end_in_chunk)` over the segment list. -/
def segFold (lastCommittedEnd startTime : ℚ) (segs : List Seg) : String × ℚ :=
  segs.foldl
    (fun acc s =>
      if keepSeg lastCommittedEnd startTime s then
        ((if acc.1 = "" then s.text else acc.1 ++ " " ++ s.text),
         (if startTime + s.end_ > acc.2 then startTime + s.end_ else acc.2))
      else acc)
    ("", lastCommittedEnd)

/-- Rust `str::trim`: the string with leading and trailing whitespace
removed.  (Embedded directly over the character list; Lean's built-in
`String.trim` computes the same result but through `Substring` auxiliaries
that the kernel cannot evaluate.) -/
def trimStr (s : String) : String :=
  ⟨((s.data.dropWhile Char.isWhitespace).reverse.dropWhile
      Char.isWhitespace).reverse⟩

/-- One iteration of the worker loop body (subtitle.rs lines 61–104) for one
received window: returns the new `last_committed_end` and the text passed to
`onSubtitleText`, if any. -/
def processWindow (lastCommittedEnd startTime : ℚ) (result : Option TResult) :
    ℚ × Option String :=
  match result with
  | none => (lastCommittedEnd, none)
  | some r =>
    let p :=
      match r.segments with
      | some segs => segFold lastCommittedEnd startTime segs
      | none =>
        if r.text.length > 0 then (r.text, startTime + 2)
        else ("", lastCommittedEnd)
    let textTrim := trimStr p.1
    if textTrim = "" then (lastCommittedEnd, none) else (p.2, some textTrim)

/-- The worker loop over a whole session's queue: threads the commit cursor
through `processWindow` and collects the emitted subtitle texts in order. -/
def runWorker (lastCommittedEnd : ℚ) : List WindowIn → ℚ × List String
  | [] => (lastCommittedEnd, [])
  | w :: ws =>
    let p := processWindow lastCommittedEnd w.startTime w.result
    let rest := runWorker p.1 ws
    (rest.1, (match p.2 with | some t => [t] | none => []) ++ rest.2)

/-- Specification-side join (spec §4.3: "Concatenate surviving segment texts
with single spaces, in segment order"), for comparison with the code's
incremental fold. -/
def specJoinSpaces : List String → String
  | [] => ""
  | t :: ts => ts.foldl (fun a s => a ++ " " ++ s) t

/-! ## Audio windower (src/src/subtitle.rs, pushAudio) -/

/-- The windower fields of `LiveSubtitleState` (subtitle.rs lines 12–18).
`worker_tx` is represented by the returned optional window. -/
structure LiveState where
  buffer : List ℚ
  totalSamples : ℕ
  lastProcessSample : ℕ
  updateInterval : ℕ
deriving DecidableEq

/-- Sum of squares of the buffer, the numerator of the RMS computation
(subtitle.rs line 149). -/
def sumSq (l : List ℚ) : ℚ := l.foldl (fun a x => a + x * x) 0

/-- The silence gate of subtitle.rs line 152, `rms > 0.002`, embedded on the
squared scale: `sum_sq/len > 0.002^2`. -/
def rmsGate (buffer : List ℚ) : Bool :=
  decide (sumSq buffer / (buffer.length : ℚ) > (2/1000 : ℚ)^2)

/-- The function `Java_dev_notune_transcribe_LiveSubtitleService_pushAudio`
(subtitle.rs lines 131–164): appends the input, and if the sample counter
crossed `last_process_sample + update_interval`, applies the RMS gate, sends
a window clone when the gate passes, advances `last_process_sample`, and trims
the buffer to the trailing 48000 samples when longer. -/
def pushAudio (st : LiveState) (input : List ℚ) :
    LiveState × Option (List ℚ × ℚ) :=
  let buffer := st.buffer ++ input
  let total := st.totalSamples + input.length
  if total ≥ st.lastProcessSample + st.updateInterval then
    let bufferLen := buffer.length
    let startTime := ((total : ℚ) - (bufferLen : ℚ)) / 16000
    let sent := if rmsGate buffer then some (buffer, startTime) else none
    let buffer2 :=
      if bufferLen > 48000 then buffer.drop (bufferLen - 48000) else buffer
    ({ buffer := buffer2, totalSamples := total, lastProcessSample := total,
       updateInterval := st.updateInterval }, sent)
  else
    ({ st with buffer := buffer, totalSamples := total }, none)

/-! ## One-shot flow stop (src/src/voice_session.rs, stop_recording) -/

/-- Outcome of the synchronous part of `stop_recording`
(voice_session.rs lines 147–167): the status notifications sent on the
caller's thread, the buffer handed to a spawned transcription thread (if
any), and the engine-loaded flag, which this code never touches. -/
structure StopOutcome where
  notifications : List String
  spawned : Option (List ℚ)
  engineAfter : Bool
deriving DecidableEq

/-- Function `stop_recording` up to the `thread::spawn` (voice_session.rs 147–167):
drops the stream, clones the buffer, and on an empty buffer notifies one
error and returns without spawning; otherwise notifies "Transcribing..." and
spawns the transcription task on the cloned buffer. -/
def stop_recording (engineLoaded : Bool) (audioBuffer : List ℚ) : StopOutcome :=
  if audioBuffer.isEmpty then
    { notifications := ["Error: no audio recorded. Check microphone permissions."],
      spawned := none, engineAfter := engineLoaded }
  else
    { notifications := ["Transcribing..."], spawned := some audioBuffer,
      engineAfter := engineLoaded }

/-! ## IME wait loop (src/src/ime.rs, stopRecording lines 166–176) -/

/-- Result of the IME spawned thread's wait-for-model loop. -/
inductive WaitRes
  | proceed
  | timeout
  | fuelOut
deriving DecidableEq

/-- The polling loop of ime.rs lines 169–175, one call per 200 ms sleep
iteration.  `eng k` is `engine::get_engine().is_some()` and `loading k` is
`MODEL_LOADING` at iteration `k`; `elapsedMs k` is `start.elapsed()` in
milliseconds at iteration `k`.  The loop exits with `.proceed` when the
condition fails, and with `.timeout` (after notifying
"Error: timeout waiting for model") when the elapsed time exceeds 120 s. -/
def imeWaitFrom (eng loading : ℕ → Bool) (elapsedMs : ℕ → ℕ) :
    ℕ → ℕ → WaitRes
  | 0, _ => .fuelOut
  | fuel + 1, k =>
    if eng k = false ∧ loading k = true then
      if elapsedMs k > 120000 then .timeout
      else imeWaitFrom eng loading elapsedMs fuel (k + 1)
    else .proceed

/-! ## Load coordinator (src/src/engine.rs) and the MainActivity loader
(src/src/main_activity.rs), as an interleaving small-step system.

Shared state: `engine` is `GLOBAL_ENGINE.lock().is_some()`, `lstate` the
`LOAD_STATE` value, `lock` whether the `LOAD_STATE` mutex is held.  Each
thread runs either `ensure_loaded` (program counters `start` …) or the
thread body spawned by `Java_dev_notune_transcribe_MainActivity_initNative`
(program counters `mStart` …).  A condvar wait is modelled by the `waiting`
counter: the thread re-acquires the mutex, re-checks `*state == Loading`
and either re-waits or leaves the loop (Rust condvars allow spurious
wakeups, so letting the check run whenever the mutex is free only adds
behaviours the real program also has).  The compound "acquire, write the
result, notify_all, release" at the end of `ensure_loaded` is one atomic
step, as the mutex is held throughout. -/

/-- The `LoadState` enum from engine.rs lines 19–29. -/
inductive LoadState
  | idle
  | loading
  | done
  | failed (reason : String)
deriving DecidableEq

/-- The outcome the environment gives one thread's load attempt:
`extract_assets` failing, `load_model_with_params` failing, or success. -/
inductive LoadOutcome
  | success
  | assetErr (e : String)
  | modelErr (e : String)
deriving DecidableEq

/-- Status notifications sent through `onStatusUpdate`; `render` gives the
exact strings the code passes. -/
inductive Msg
  | ready
  | waitingForModel
  | checkingAssets
  | loadingModel
  | errorStatus (detail : String)
  | statusOther (s : String)
deriving DecidableEq

/-- The exact string argument of `onStatusUpdate` for each message. -/
def Msg.render : Msg → String
  | .ready => "Ready"
  | .waitingForModel => "Waiting for model..."
  | .checkingAssets => "Checking assets..."
  | .loadingModel => "Loading model..."
  | .errorStatus d => "Error: " ++ d
  | .statusOther s => s

/-- The detail string of the error `do_load` reports for a failing outcome
(engine.rs lines 197 and 223). -/
def errMsgOf : LoadOutcome → String
  | .success => ""
  | .assetErr e => "Asset error: " ++ e
  | .modelErr e => "Model error: " ++ e

/-- Program counters.  `start`–`ret` walk `ensure_loaded`
(engine.rs lines 59–113): unsynchronized fast path, mutex acquisition,
re-check under the mutex, the `match` on the state, the condvar wait, the
post-wait engine check, the two halves of `do_load` (asset extraction, then
model load), and the final result write-back.  `mStart`–`mRet` walk the
thread spawned by MainActivity's `initNative` (main_activity.rs lines
22–48), which checks and loads the engine with no `LOAD_STATE`
coordination. -/
inductive Pc
  | start
  | tryLock
  | locked
  | branch
  | waiting
  | afterWait
  | loadA
  | loadB
  | writeRes (ok : Bool)
  | ret (ok : Bool)
  | mStart
  | mExtract
  | mCheck
  | mConstruct
  | mRet
deriving DecidableEq

/-- One thread: its program counter, the outcome its load attempt would
have, and the log of notifications sent to its own callback object. -/
structure Thr where
  pc : Pc
  outcome : LoadOutcome
  log : List Msg
deriving DecidableEq

/-- The shared process state plus all threads.  `loads` counts entries into
`do_load` via the coordinator's claim step; `time` is wall time in seconds,
advanced by `Act.tick`. -/
structure Sys (n : ℕ) where
  engine : Bool
  lstate : LoadState
  lock : Bool
  loads : ℕ
  time : ℕ
  threads : Fin n → Thr

/-- Replace thread `i`. -/
def Sys.setT {n : ℕ} (g : Sys n) (i : Fin n) (t : Thr) : Sys n :=
  { g with threads := Function.update g.threads i t }

/-- Advance a thread to counter `p`, appending notifications `ms` to its
log. -/
def Thr.go (t : Thr) (p : Pc) (ms : List Msg) : Thr :=
  { t with pc := p, log := t.log ++ ms }

/-- One atomic step of thread `i`.  A thread blocked on the mutex, or
terminated, leaves the system unchanged. -/
def step {n : ℕ} (g : Sys n) (i : Fin n) : Sys n :=
  let t := g.threads i
  match t.pc with
  | .start =>
    -- fast path: `if is_engine_loaded() { notify Ready; return Ok }`
    if g.engine then g.setT i (t.go (.ret true) [.ready])
    else g.setT i (t.go .tryLock [])
  | .tryLock =>
    -- `lock.lock()`
    if g.lock then g
    else { g.setT i (t.go .locked []) with lock := true }
  | .locked =>
    -- re-check under lock
    if g.engine then
      { g.setT i (t.go (.ret true) [.ready]) with lock := false }
    else g.setT i (t.go .branch [])
  | .branch =>
    -- `match &*state`
    match g.lstate with
    | .loading =>
      { g.setT i (t.go .waiting [.waitingForModel]) with lock := false }
    | .done =>
      { g.setT i (t.go (.ret true) [.ready]) with lock := false }
    | .idle =>
      { g.setT i (t.go .loadA []) with
        lock := false, lstate := .loading, loads := g.loads + 1 }
    | .failed _ =>
      { g.setT i (t.go .loadA []) with
        lock := false, lstate := .loading, loads := g.loads + 1 }
  | .waiting =>
    -- `while *state == LoadState::Loading { state = cvar.wait(state) }`
    if g.lock then g
    else if g.lstate = .loading then g
    else g.setT i (t.go .afterWait [])
  | .afterWait =>
    -- `if is_engine_loaded() { Ready } else { Error: Model failed to load }`
    if g.engine then g.setT i (t.go (.ret true) [.ready])
    else g.setT i (t.go (.ret false) [.errorStatus "Model failed to load"])
  | .loadA =>
    -- do_load, first half: notify and run `extract_assets`
    match t.outcome with
    | .assetErr e =>
      g.setT i (t.go (.writeRes false)
        [.checkingAssets, .errorStatus ("Asset error: " ++ e)])
    | _ => g.setT i (t.go .loadB [.checkingAssets])
  | .loadB =>
    -- do_load, second half: notify and run `load_model_with_params`;
    -- on success install into GLOBAL_ENGINE and notify Ready
    match t.outcome with
    | .success =>
      { g.setT i (t.go (.writeRes true) [.loadingModel, .ready]) with
        engine := true }
    | o =>
      g.setT i (t.go (.writeRes false) [.loadingModel, .errorStatus (errMsgOf o)])
  | .writeRes ok =>
    -- `lock.lock(); *state = Done/Failed; cvar.notify_all();` then return
    if g.lock then g
    else
      { g.setT i (t.go (.ret ok) []) with
        lstate := if ok then .done else .failed (errMsgOf t.outcome) }
  | .ret _ => g
  | .mStart =>
    -- MainActivity loader thread: notify "Checking assets..."
    g.setT i (t.go .mExtract [.checkingAssets])
  | .mExtract =>
    -- `extract_assets`; on success notify "Loading model..."
    match t.outcome with
    | .assetErr e =>
      g.setT i (t.go .mRet [.statusOther ("Asset Error: " ++ e)])
    | _ => g.setT i (t.go .mCheck [.loadingModel])
  | .mCheck =>
    -- `if !engine::is_engine_loaded()`
    if g.engine then g.setT i (t.go .mRet [.ready])
    else g.setT i (t.go .mConstruct [])
  | .mConstruct =>
    -- construct ParakeetEngine and `load_model_with_params`.
    -- Modelled from the spec: `engine::set_engine` is called here
    -- (main_activity.rs line 36) but its definition is absent from src/;
    -- per spec §2 EngineHandle "install(instance)" it installs the loaded
    -- instance, i.e. sets the engine-loaded flag.
    match t.outcome with
    | .success =>
      { g.setT i (t.go .mRet [.ready]) with engine := true }
    | .modelErr e =>
      g.setT i (t.go .mRet [.statusOther ("Model Error: " ++ e)])
    | .assetErr e =>
      g.setT i (t.go .mRet [.statusOther ("Model Error: " ++ e)])
  | .mRet => g

/-- A scheduler action: run one step of thread `i`, or let one second of
wall time pass. -/
inductive Act (n : ℕ)
  | go (i : Fin n)
  | tick

/-- Apply one scheduler action. -/
def stepAct {n : ℕ} (g : Sys n) : Act n → Sys n
  | .go i => step g i
  | .tick => { g with time := g.time + 1 }

/-- Run a whole schedule. -/
def runSys {n : ℕ} (g : Sys n) (sched : List (Act n)) : Sys n :=
  sched.foldl stepAct g

/-- Initial system: clean process state, every thread at its entry with its
prescribed load outcome and an empty log. -/
def initSys (n : ℕ) (pcs : Fin n → Pc) (outs : Fin n → LoadOutcome) : Sys n :=
  { engine := false, lstate := .idle, lock := false, loads := 0, time := 0,
    threads := fun i => { pc := pcs i, outcome := outs i, log := [] } }

/-- Whether `pc` is inside `do_load` (the coordinator's load procedure). -/
def Pc.inDoLoad : Pc → Bool
  | .loadA | .loadB => true
  | _ => false

/-- Whether `pc` is inside the MainActivity loader's asset-extraction plus
engine-construction region. -/
def Pc.inMainLoad : Pc → Bool
  | .mExtract | .mCheck | .mConstruct => true
  | _ => false

/-- Whether `pc` is inside the model-load procedure via either entry point. -/
def Pc.inLoadProc : Pc → Bool
  | .loadA | .loadB | .mExtract | .mCheck | .mConstruct => true
  | _ => false

/-- Whether `pc` is in the coordinator's critical span: from claiming `Loading` to
writing the result back. -/
def Pc.inCrit : Pc → Bool
  | .loadA | .loadB | .writeRes _ => true
  | _ => false

/-- Number of `errorStatus` notifications in a log. -/
def errCount (l : List Msg) : ℕ :=
  (l.filter fun m => match m with | .errorStatus _ => true | _ => false).length

/-- Expected `errorStatus` count of a thread sitting at `pc`. -/
def pcErr : Pc → ℕ
  | .writeRes false => 1
  | .ret false => 1
  | _ => 0

/-- Two threads: thread 0 runs `ensure_loaded`, thread 1 is the MainActivity
loader; both loads would succeed. -/
def mixedInit : Sys 2 :=
  initSys 2 (fun i => if i = 0 then .start else .mStart) (fun _ => .success)

/-- Schedule driving thread 0 into the middle of `do_load` (claimed
`Loading`, assets extracted, model load pending) and thread 1 into the
middle of its own extraction-plus-construction. -/
def mixedSched : List (Act 2) :=
  [.go 0, .go 0, .go 0, .go 0, .go 0, .go 1, .go 1, .go 1]

/-- Two `ensure_loaded` callers starting while `LOAD_STATE` is `Idle`:
thread 0's load fails in asset extraction, thread 1's would succeed. -/
def retryInit : Sys 2 :=
  initSys 2 (fun _ => .start) (fun i => if i = 0 then .assetErr "x" else .success)

/-- Both callers enter `ensure_loaded` while `Idle` (thread 1 takes its fast
path first); thread 0 then claims, fails and records `Failed`; thread 1
observes `Failed`, claims again and loads successfully. -/
def retrySched : List (Act 2) :=
  [.go 1, .go 0, .go 0, .go 0, .go 0, .go 0, .go 0,
   .go 1, .go 1, .go 1, .go 1, .go 1, .go 1]

/-- Two `ensure_loaded` callers, both loads succeeding. -/
def twoOkInit : Sys 2 := initSys 2 (fun _ => .start) (fun _ => .success)

/-- Thread 0 runs the whole load; thread 1 then takes the fast path. -/
def twoOkSched : List (Act 2) :=
  [.go 0, .go 0, .go 0, .go 0, .go 0, .go 0, .go 0, .go 1]

/-- Thread 0 claims `Loading` and then stalls inside `do_load` (it is never
scheduled again); thread 1 reaches the condvar wait; then 121 seconds pass
while thread 1 keeps re-checking `*state == Loading`. -/
def stallSched : List (Act 2) :=
  [.go 0, .go 0, .go 0, .go 0, .go 1, .go 1, .go 1, .go 1] ++
    List.replicate 121 Act.tick ++ [.go 1, .go 1, .go 1]

/-- A single `ensure_loaded` caller whose asset extraction fails. -/
def oneFailInit : Sys 1 := initSys 1 (fun _ => .start) (fun _ => .assetErr "boom")

/-- Run the single failing caller to completion. -/
def oneFailSched : List (Act 1) := [.go 0, .go 0, .go 0, .go 0, .go 0, .go 0]

/-- Thread `i` is in the coordinator's critical span (from claiming
`Loading` through writing the result back). -/
def crit {n : ℕ} (g : Sys n) (i : Fin n) : Prop :=
  (g.threads i).pc.inCrit = true

/-- The coordinator invariant: at most one thread is in the critical span,
and while one is, `LOAD_STATE` is `Loading`. -/
def CoordInv {n : ℕ} (g : Sys n) : Prop :=
  (∀ i j : Fin n, crit g i → crit g j → i = j)
  ∧ (∀ i : Fin n, crit g i → g.lstate = .loading)

/-- Counters of the pre-claim portion of `ensure_loaded`. -/
def basicPc (p : Pc) : Prop :=
  p = .start ∨ p = .tryLock ∨ p = .locked ∨ p = .branch

/-- Counters a non-loader thread can occupy while a successful load is in
flight. -/
def phase1Pc (p : Pc) : Prop :=
  basicPc p ∨ p = .waiting ∨ p = .ret true

/-- Counters any thread can occupy after a successful load completed. -/
def phase2Pc (p : Pc) : Prop :=
  basicPc p ∨ p = .waiting ∨ p = .afterWait ∨ p = .ret true

/-- All-success phase 0: nothing claimed yet. -/
def AS0 {n : ℕ} (g : Sys n) : Prop :=
  g.loads = 0 ∧ g.lstate = .idle ∧ g.engine = false
  ∧ ∀ i, basicPc (g.threads i).pc

/-- All-success phase 1: exactly one claimed load is in flight. -/
def AS1 {n : ℕ} (g : Sys n) : Prop :=
  g.loads = 1 ∧ g.lstate = .loading
  ∧ ∃ k, ((((g.threads k).pc = .loadA ∨ (g.threads k).pc = .loadB)
            ∧ g.engine = false)
          ∨ ((g.threads k).pc = .writeRes true ∧ g.engine = true))
      ∧ ∀ j, j ≠ k → phase1Pc (g.threads j).pc

/-- All-success phase 2: the single load completed and was recorded. -/
def AS2 {n : ℕ} (g : Sys n) : Prop :=
  g.loads = 1 ∧ g.lstate = .done ∧ g.engine = true
  ∧ ∀ i, phase2Pc (g.threads i).pc

/-- Every thread's load attempt would succeed. -/
def AllSucc {n : ℕ} (g : Sys n) : Prop :=
  ∀ i, (g.threads i).outcome = .success

/-- The all-success invariant of a system of `ensure_loaded` callers. -/
def AS {n : ℕ} (g : Sys n) : Prop := AS0 g ∨ AS1 g ∨ AS2 g

/-- Equality of everything a caller can observe — the engine flag, the
mutex, the load count, time and all thread states — leaving out only the
`LOAD_STATE` value itself. -/
def SameObs {n : ℕ} (a b : Sys n) : Prop :=
  a.engine = b.engine ∧ a.lock = b.lock ∧ a.loads = b.loads
  ∧ a.time = b.time ∧ a.threads = b.threads

/-- The `Failed`-behaves-like-`Idle` coupling: same observables, and the
states agree or are the `Failed r` / `Idle` pair. -/
def FailedIdleRel {n : ℕ} (r : String) (a b : Sys n) : Prop :=
  SameObs a b ∧ (a.lstate = b.lstate ∨ (a.lstate = .failed r ∧ b.lstate = .idle))

/-- Per-thread error-notification accounting: a thread's log holds exactly
the `Error: ...` notifications its counter implies — one after a failed
load attempt or a failed wait, none otherwise. -/
def ErrInv {n : ℕ} (g : Sys n) : Prop :=
  ∀ i, errCount (g.threads i).log = pcErr (g.threads i).pc

/-! ## Lemmas and theorems -/

/-- A string with a space glued in is nonempty. -/
lemma append_space_ne_empty (a t : String) : a ++ " " ++ t ≠ "" := by
  intro h
  have hl := congrArg String.length h
  simp [String.length_append] at hl
  exact absurd hl.1.2 (by decide)

/-- The running text of the worker's segment fold, starting from a nonempty
accumulator, is the accumulator joined to every surviving text with single
spaces. -/
lemma segFold_go (lce st : ℚ) (segs : List Seg) :
    ∀ (a : String) (m : ℚ), a ≠ "" → (∀ s ∈ segs, s.text ≠ "") →
      (segs.foldl
        (fun acc s =>
          if keepSeg lce st s then
            ((if acc.1 = "" then s.text else acc.1 ++ " " ++ s.text),
             (if st + s.end_ > acc.2 then st + s.end_ else acc.2))
          else acc)
        (a, m)).1
      = ((segs.filter (keepSeg lce st)).map Seg.text).foldl
          (fun r s => r ++ " " ++ s) a := by
  induction segs with
  | nil => intro a m _ _; rfl
  | cons s rest ih =>
    intro a m ha hne
    by_cases hk : keepSeg lce st s
    · simp only [List.foldl_cons, List.filter_cons, hk, if_pos, List.map_cons,
        if_neg ha]
      exact ih (a ++ " " ++ s.text) _ (append_space_ne_empty a s.text)
        (fun x hx => hne x (List.mem_cons_of_mem s hx))
    · simp only [List.foldl_cons, List.filter_cons, hk]
      simp only [if_neg hk, Bool.false_eq_true, if_false]
      exact ih a m ha (fun x hx => hne x (List.mem_cons_of_mem s hx))

/-- The worker's incremental join equals the specification's
"concatenate surviving texts with single spaces", provided every segment
text is nonempty (the worker skips the separator only before the very first
text, which matters only for empty texts). -/
lemma segFold_text_eq (lce st : ℚ) (segs : List Seg)
    (hne : ∀ s ∈ segs, s.text ≠ "") :
    (segFold lce st segs).1
      = specJoinSpaces ((segs.filter (keepSeg lce st)).map Seg.text) := by
  induction segs with
  | nil => rfl
  | cons s rest ih =>
    by_cases hk : keepSeg lce st s
    · have hs : s.text ≠ "" := hne s (List.mem_cons_self s rest)
      simp only [segFold, List.foldl_cons, List.filter_cons, hk, if_pos,
        List.map_cons]
      simp only [if_pos rfl, specJoinSpaces]
      exact segFold_go lce st rest s.text _ hs
        (fun x hx => hne x (List.mem_cons_of_mem s hx))
    · simp only [segFold, List.foldl_cons, List.filter_cons, hk]
      simp only [if_neg hk, Bool.false_eq_true, if_false]
      exact ih (fun x hx => hne x (List.mem_cons_of_mem s hx))

/-- The max-end accumulator of the segment fold never goes below its initial
value. -/
lemma segFold_snd_ge (lce st : ℚ) (segs : List Seg) :
    lce ≤ (segFold lce st segs).2 := by
  suffices h : ∀ (acc : String × ℚ),
      acc.2 ≤ (segs.foldl
        (fun acc s =>
          if keepSeg lce st s then
            ((if acc.1 = "" then s.text else acc.1 ++ " " ++ s.text),
             (if st + s.end_ > acc.2 then st + s.end_ else acc.2))
          else acc) acc).2 by
    exact h ("", lce)
  induction segs with
  | nil => intro acc; exact le_refl _
  | cons s rest ih =>
    intro acc
    refine le_trans ?_ (ih _)
    dsimp only
    split
    · dsimp only
      split
      · next he => exact le_of_lt he
      · exact le_refl _
    · exact le_refl _

/-- C2, counterexample.  The spec scenario: window 1 committed
`{`"hello"`, 0.0..0.5}` so `last_committed_end = 0.5`; window 2 has
`absolute_start_time_seconds = 1.5` and a segment `{start := -1.0,
end := -0.5}`, i.e. absolute `[0.5, 1.0)`.  The claim says this segment is
filtered out and not re-emitted; the code keeps it (`0.5 ≥ 0.5 - 0.05`),
re-emits "hello" and advances the cursor to `1.0`. -/
theorem c2_counterexample :
    (processWindow (1/2) (3/2) (some ⟨"hello", some [⟨"hello", -1, -1/2⟩]⟩)).2
      = some "hello"
    ∧ (processWindow (1/2) (3/2) (some ⟨"hello", some [⟨"hello", -1, -1/2⟩]⟩)).1
      = 1 := by
  norm_num [processWindow, segFold, keepSeg,
    show trimStr "hello" = "hello" from rfl,
    show ("hello":String) ≠ "" from by decide]

/-- C2, amended.  A segment whose absolute start time equals the current
commit cursor satisfies the keep rule `abs_start >= last_committed_end -
0.05`, so it is kept and its (trimmed, nonempty) text IS re-emitted — the
boundary is inclusive in favour of re-emission, not suppression. -/
theorem c2_boundary_segment_reemitted
    (lce startTime : ℚ) (s : Seg)
    (habs : startTime + s.start = lce)
    (htrim : trimStr s.text ≠ "") :
    keepSeg lce startTime s = true
    ∧ (processWindow lce startTime (some ⟨s.text, some [s]⟩)).2
        = some (trimStr s.text) := by
  have hk : keepSeg lce startTime s = true := by
    simp only [keepSeg, decide_eq_true_eq, habs]
    linarith
  refine ⟨hk, ?_⟩
  simp [processWindow, segFold, hk, htrim]

/-- Witness for `c2_boundary_segment_reemitted` at the spec scenario's
window 2. -/
theorem c2_boundary_witness :
    keepSeg (1/2) (3/2) ⟨"hello", -1, -1/2⟩ = true
    ∧ (processWindow (1/2) (3/2) (some ⟨"hello", some [⟨"hello", -1, -1/2⟩]⟩)).2
      = some "hello" := by
  have h := c2_boundary_segment_reemitted (1/2) (3/2)
    ⟨"hello", -1, -1/2⟩ (by norm_num) (by decide)
  exact ⟨h.1, by rw [h.2]; rfl⟩

/-- C3, counterexample.  Window 1 (start 0) commits a segment ending at
absolute 5.0, so the cursor is 5.0; window 2 (start 2.0) returns no timed
segments, and the fallback sets the cursor to `start_time + 2.0 = 4.0 <
5.0`: `last_committed_end` DECREASES across the fallback path. -/
theorem c3_counterexample :
    (runWorker 0 [⟨0, some ⟨"a", some [⟨"a", 0, 5⟩]⟩⟩]).1 = 5
    ∧ (runWorker 0 [⟨0, some ⟨"a", some [⟨"a", 0, 5⟩]⟩⟩,
                    ⟨2, some ⟨"x", none⟩⟩]).1 = 4
    ∧ ¬ ((5:ℚ) ≤ 4) := by
  norm_num [runWorker, processWindow, segFold, keepSeg,
    show trimStr "a" = "a" from rfl, show trimStr "x" = "x" from rfl,
    show ("a":String) ≠ "" from by decide, show ("x":String) ≠ "" from by decide,
    show (0:ℕ) < "x".length from by decide]

/-- C3, amended.  Across windows whose result carries timed segments (and
across skipped windows: engine missing or inference error), the commit
cursor is monotonically non-decreasing; only the no-timed-segments fallback
(which overwrites the cursor with `start_time + 2.0`) can decrease it. -/
theorem c3_cursor_monotone_with_segments
    (lce startTime : ℚ) (result : Option TResult)
    (h : ∀ r, result = some r → r.segments.isSome) :
    lce ≤ (processWindow lce startTime result).1 := by
  cases result with
  | none => exact le_refl _
  | some r =>
    obtain ⟨segs, hsegs⟩ := Option.isSome_iff_exists.mp (h r rfl)
    simp only [processWindow, hsegs]
    split
    · exact le_refl _
    · exact segFold_snd_ge lce startTime segs

/-- Witness for `c3_cursor_monotone_with_segments`. -/
theorem c3_monotone_witness :
    (3:ℚ) ≤ (processWindow 3 0 (some ⟨"t", some []⟩)).1 :=
  c3_cursor_monotone_with_segments 3 0 (some ⟨"t", some []⟩)
    (fun r hr => by cases hr; rfl)

/-- A crossing `pushAudio` call whose whole-buffer RMS is at or below the
silence threshold (stated on the squared scale) enqueues no window and
advances `last_process_sample` to the total sample count. -/
lemma pushAudio_silent
    (st : LiveState) (input : List ℚ)
    (hcross : st.totalSamples + input.length ≥ st.lastProcessSample + st.updateInterval)
    (hsil : sumSq (st.buffer ++ input) / (((st.buffer ++ input).length : ℕ) : ℚ)
              ≤ (2/1000 : ℚ)^2) :
    (pushAudio st input).2 = none
    ∧ (pushAudio st input).1.lastProcessSample = st.totalSamples + input.length := by
  have hg : rmsGate (st.buffer ++ input) = false :=
    decide_eq_false (not_lt.mpr hsil)
  simp [pushAudio, hcross, hg]

/-- The sum of squares of a zero buffer is zero. -/
lemma sumSq_replicate_zero (n : ℕ) : sumSq (List.replicate n (0:ℚ)) = 0 := by
  induction n with
  | zero => rfl
  | succ k ih =>
    simpa [sumSq, List.replicate_succ, List.foldl_cons] using ih

/-- The first of the two 36000-sample silent pushes of the spec scenario,
computed symbolically. -/
lemma silent_push1 :
    pushAudio ⟨[], 0, 0, 32000⟩ (List.replicate 36000 (0:ℚ))
      = (⟨List.replicate 36000 0, 36000, 36000, 32000⟩, none) := by
  set L : List ℚ := List.replicate 36000 (0:ℚ) with hL
  have hlen : L.length = 36000 := by rw [hL, List.length_replicate]
  have hs : sumSq L = 0 := by rw [hL]; exact sumSq_replicate_zero 36000
  have hg : rmsGate L = false := by
    apply decide_eq_false
    rw [not_lt, hs, zero_div]
    positivity
  simp only [pushAudio, List.nil_append, hg, hlen]
  norm_num

/-- C6.  Whenever a `pushAudio` call crosses the windowing threshold
(`total_samples >= last_process_sample + update_interval`) while the RMS of
the whole current buffer is at or below the silence threshold 0.002 (stated
on the squared scale: `sum_sq/len <= 0.002^2`), no window is sent to the
worker queue and `last_process_sample` is set to `total_samples`; in
particular the spec's scenario — 72000 zero-valued samples pushed in two
calls of 36000 each with `update_interval = 2.0 s` (32000 samples) — never
enqueues a window. -/
theorem c6_silence_gate_no_window :
    (∀ (st : LiveState) (input : List ℚ),
      st.totalSamples + input.length ≥ st.lastProcessSample + st.updateInterval →
      sumSq (st.buffer ++ input) / (((st.buffer ++ input).length : ℕ) : ℚ)
          ≤ (2/1000 : ℚ)^2 →
      (pushAudio st input).2 = none
      ∧ (pushAudio st input).1.lastProcessSample
          = st.totalSamples + input.length)
    ∧ (pushAudio ⟨[], 0, 0, 32000⟩ (List.replicate 36000 (0:ℚ))).2 = none
    ∧ (pushAudio (pushAudio ⟨[], 0, 0, 32000⟩ (List.replicate 36000 (0:ℚ))).1
        (List.replicate 36000 (0:ℚ))).2 = none := by
  refine ⟨pushAudio_silent, by rw [silent_push1], ?_⟩
  rw [silent_push1]
  have hlen : (List.replicate 36000 (0:ℚ)).length = 36000 :=
    List.length_replicate 36000 0
  refine (pushAudio_silent _ _ ?_ ?_).1
  · rw [hlen]; decide
  · rw [← List.replicate_add, sumSq_replicate_zero, zero_div]
    positivity

/-- Witness for `c6_silence_gate_no_window`'s universally quantified part,
at a small concrete crossing silent push. -/
theorem c6_silence_witness :
    (pushAudio ⟨[], 0, 0, 2⟩ [0, 0]).2 = none
    ∧ (pushAudio ⟨[], 0, 0, 2⟩ [0, 0]).1.lastProcessSample = 2 :=
  c6_silence_gate_no_window.1 ⟨[], 0, 0, 2⟩ [0, 0] (by decide)
    (by norm_num [sumSq])

/-- C9.  Whenever a `pushAudio` call triggers the windowing check, the
session buffer is afterwards trimmed to exactly its trailing 48000 samples
when it held more than 48000 (the retained suffix unchanged, i.e. the
result is precisely `drop (len - 48000)` of the appended buffer), and is
left untouched when it held at most 48000. -/
theorem c9_overlap_trim
    (st : LiveState) (input : List ℚ)
    (hcross : st.totalSamples + input.length
        ≥ st.lastProcessSample + st.updateInterval) :
    ((st.buffer ++ input).length > 48000 →
      (pushAudio st input).1.buffer
          = (st.buffer ++ input).drop ((st.buffer ++ input).length - 48000)
      ∧ (pushAudio st input).1.buffer.length = 48000)
    ∧ ((st.buffer ++ input).length ≤ 48000 →
      (pushAudio st input).1.buffer = st.buffer ++ input) := by
  constructor
  · intro hlen
    have h' : 48000 < st.buffer.length + input.length := by
      rw [← List.length_append]; exact hlen
    constructor
    · simp [pushAudio, hcross, h']
    · simp [pushAudio, hcross, h', List.length_drop]
      omega
  · intro hlen
    have hn : ¬ (48000 < st.buffer.length + input.length) := by
      rw [← List.length_append]; exact not_lt.mpr hlen
    simp [pushAudio, hcross, hn]

/-- Witness for `c9_overlap_trim`: a triggering push taking the buffer to
48001 samples is trimmed to its trailing 48000. -/
theorem c9_trim_witness :
    (pushAudio ⟨[], 0, 0, 2⟩ (List.replicate 48001 (0:ℚ))).1.buffer.length
      = 48000 :=
  ((c9_overlap_trim ⟨[], 0, 0, 2⟩ (List.replicate 48001 (0:ℚ))
      (by rw [List.length_replicate]; decide)).1
    (by rw [List.nil_append, List.length_replicate]; decide)).2

/-- C10.  Calling the one-shot flow's `stop_recording` with an empty session
buffer attempts no transcription and spawns no worker thread: it emits
exactly one status notification, the error
"Error: no audio recorded. Check microphone permissions.", and the
engine-loaded state is untouched. -/
theorem c10_stop_empty_buffer
    (engineLoaded : Bool) (audioBuffer : List ℚ)
    (h : audioBuffer = []) :
    stop_recording engineLoaded audioBuffer
      = ⟨["Error: no audio recorded. Check microphone permissions."],
         none, engineLoaded⟩ := by
  subst h
  rfl

/-- Witness for `c10_stop_empty_buffer`. -/
theorem c10_stop_witness :
    stop_recording true []
      = ⟨["Error: no audio recorded. Check microphone permissions."],
         none, true⟩ :=
  c10_stop_empty_buffer true [] rfl

/-- C4, amended.  `ensure_loaded` itself waits on the condvar with no bound
(see the counterexample `c4_counterexample`); the bounded 120 s wait with a
timeout error belongs to the IME `stopRecording` polling loop: whenever the
engine stays absent and `MODEL_LOADING` stays set, and some iteration
within the fuel bound observes more than 120 s elapsed, the loop returns
the timeout outcome (after notifying "Error: timeout waiting for model")
instead of blocking further. -/
theorem c4_ime_wait_bounded
    (eng loading : ℕ → Bool) (elapsedMs : ℕ → ℕ)
    (hstall : ∀ k, eng k = false ∧ loading k = true) :
    ∀ (fuel k : ℕ), (∃ j, k ≤ j ∧ j < k + fuel ∧ elapsedMs j > 120000) →
      imeWaitFrom eng loading elapsedMs fuel k = .timeout := by
  intro fuel
  induction fuel with
  | zero =>
    intro k ⟨j, hkj, hj, _⟩
    omega
  | succ f ih =>
    intro k ⟨j, hkj, hj, helapsed⟩
    rw [imeWaitFrom, if_pos (hstall k)]
    by_cases he : elapsedMs k > 120000
    · rw [if_pos he]
    · rw [if_neg he]
      refine ih (k + 1) ⟨j, ?_, by omega, helapsed⟩
      rcases Nat.eq_or_lt_of_le hkj with rfl | hlt
      · omega
      · omega

/-- Witness for `c4_ime_wait_bounded`: a permanently stalled load with
200 ms poll intervals times out within 700 iterations (iteration 601 sees
120.2 s elapsed). -/
theorem c4_ime_wait_witness :
    imeWaitFrom (fun _ => false) (fun _ => true) (fun k => 200 * k) 700 0
      = .timeout :=
  c4_ime_wait_bounded (fun _ => false) (fun _ => true) (fun k => 200 * k)
    (fun _ => ⟨rfl, rfl⟩) 700 0 ⟨601, by omega, by omega, by norm_num⟩

/-- C8.  On the timed-segments path, the worker's emission is exactly the
surviving segments' texts (those passing the keep rule), in segment order,
joined with single spaces and trimmed; when that joined text trims to
nothing, nothing is emitted, the window is handled as a success (this path
raises no error), and `last_committed_end` is unchanged.  The hypothesis
that segment texts are nonempty reflects the engine's word segments; it is
what makes "joined with single spaces" and the code's skip-separator-
while-empty fold coincide. -/
theorem c8_emission_joined_survivors
    (lce startTime : ℚ) (txt : String) (segs : List Seg)
    (hne : ∀ s ∈ segs, s.text ≠ "") :
    (processWindow lce startTime (some ⟨txt, some segs⟩)).2
      = (if trimStr (specJoinSpaces
            ((segs.filter (keepSeg lce startTime)).map Seg.text)) = ""
         then none
         else some (trimStr (specJoinSpaces
            ((segs.filter (keepSeg lce startTime)).map Seg.text))))
    ∧ (trimStr (specJoinSpaces
          ((segs.filter (keepSeg lce startTime)).map Seg.text)) = "" →
        (processWindow lce startTime (some ⟨txt, some segs⟩)).1 = lce) := by
  have hj := segFold_text_eq lce startTime segs hne
  constructor
  · by_cases hE : trimStr (specJoinSpaces
        ((segs.filter (keepSeg lce startTime)).map Seg.text)) = ""
    · simp [processWindow, hj, hE]
    · simp [processWindow, hj, hE]
  · intro hE
    simp [processWindow, hj, hE]

/-- Witness for `c8_emission_joined_survivors`: one surviving and one
deduplicated segment; the emission is the surviving text. -/
theorem c8_emission_witness :
    (processWindow 0 0 (some ⟨"q", some [⟨"hi", 0, 1⟩, ⟨"yo", -5, -4⟩]⟩)).2
      = some "hi" := by
  have h := c8_emission_joined_survivors 0 0 "q" [⟨"hi", 0, 1⟩, ⟨"yo", -5, -4⟩]
    (by decide)
  have k1 : keepSeg 0 0 ⟨"hi", 0, 1⟩ = true := by norm_num [keepSeg]
  have k2 : keepSeg 0 0 ⟨"yo", -5, -4⟩ = false := by norm_num [keepSeg]
  rw [h.1]
  norm_num [List.filter_cons, k1, k2, specJoinSpaces,
    show trimStr "hi" = "hi" from rfl,
    show ("hi":String) ≠ "" from by decide]

set_option maxRecDepth 40000 in
/-- C4, counterexample.  In the coordinator model a loader claims `Loading`
and stalls inside `do_load`; a second `ensure_loaded` caller notifies
"Waiting for model..." and enters the condvar loop.  121 seconds then pass
while the waiter keeps re-checking: it is still parked at the wait (it has
not returned), and it has emitted no error status — `ensure_loaded` has no
timeout path, contradicting the claimed 120 s bound. -/
theorem c4_counterexample :
    (runSys twoOkInit stallSched).time = 121
    ∧ ((runSys twoOkInit stallSched).threads 1).pc = .waiting
    ∧ ((runSys twoOkInit stallSched).threads 1).log = [Msg.waitingForModel]
    ∧ errCount ((runSys twoOkInit stallSched).threads 1).log = 0 := by
  decide

/-- Pointwise view of `Sys.setT`. -/
lemma setT_threads {n : ℕ} (g : Sys n) (i : Fin n) (t : Thr) (j : Fin n) :
    (g.setT i t).threads j = if j = i then t else g.threads j := by
  simp [Sys.setT, Function.update_apply]

/-- The count `errCount` is additive over appended logs. -/
lemma errCount_append (a b : List Msg) :
    errCount (a ++ b) = errCount a + errCount b := by
  simp [errCount, List.filter_append]

/-- Generic preservation of a predicate along a whole schedule. -/
lemma runSys_preserve {n : ℕ} {P : Sys n → Prop}
    (h : ∀ g a, P g → P (stepAct g a)) :
    ∀ (sched : List (Act n)) (g : Sys n), P g → P (runSys g sched) := by
  intro sched
  induction sched with
  | nil => intro g hg; exact hg
  | cons a rest ih =>
    intro g hg
    simpa [runSys, List.foldl_cons] using ih (stepAct g a) (h g a hg)

/-- Generic preservation of a binary relation along a whole schedule. -/
lemma runSys_rel {n : ℕ} {R : Sys n → Sys n → Prop}
    (h : ∀ a b act, R a b → R (stepAct a act) (stepAct b act)) :
    ∀ (sched : List (Act n)) (a b : Sys n), R a b →
      R (runSys a sched) (runSys b sched) := by
  intro sched
  induction sched with
  | nil => intro a b hab; exact hab
  | cons act rest ih =>
    intro a b hab
    simpa [runSys, List.foldl_cons] using ih _ _ (h a b act hab)

/-- The invariant `CoordInv` survives a step whose thread keeps its critical status and
which leaves `LOAD_STATE` alone. -/
lemma coordInv_same {n : ℕ} {g g' : Sys n} (inv : CoordInv g) (i : Fin n)
    (p' : Pc)
    (hth : ∀ j, (g'.threads j).pc = if j = i then p' else (g.threads j).pc)
    (hl : g'.lstate = g.lstate)
    (hp : p'.inCrit = (g.threads i).pc.inCrit) : CoordInv g' := by
  obtain ⟨u, lo⟩ := inv
  have hc : ∀ j, crit g' j ↔ crit g j := by
    intro j
    by_cases hj : j = i
    · subst hj; simp [crit, hth j, hp]
    · simp [crit, hth j, hj]
  exact ⟨fun a b ha hb => u a b ((hc a).mp ha) ((hc b).mp hb),
         fun a ha => by rw [hl]; exact lo a ((hc a).mp ha)⟩

/-- The invariant `CoordInv` survives the claim step: `LOAD_STATE` was not `Loading`, so
nobody was in the critical span, and afterwards exactly the claiming thread
is, with the state now `Loading`. -/
lemma coordInv_entry {n : ℕ} {g g' : Sys n} (inv : CoordInv g) (i : Fin n)
    (hth : ∀ j, (g'.threads j).pc = if j = i then Pc.loadA else (g.threads j).pc)
    (hl : g'.lstate = .loading)
    (hns : g.lstate ≠ .loading) : CoordInv g' := by
  have honly : ∀ j, crit g' j → j = i := by
    intro j hj
    by_cases hji : j = i
    · exact hji
    · exfalso
      have hgj : crit g j := by
        have := hth j
        rw [if_neg hji] at this
        simpa [crit, this] using hj
      exact hns (inv.2 j hgj)
  exact ⟨fun a b ha hb => (honly a ha).trans (honly b hb).symm,
         fun a _ => hl⟩

/-- The invariant `CoordInv` survives the result write-back: the single critical thread
leaves the span, so nobody is in it afterwards, whatever the new state. -/
lemma coordInv_exit {n : ℕ} {g g' : Sys n} (inv : CoordInv g) (i : Fin n)
    (p' : Pc)
    (hth : ∀ j, (g'.threads j).pc = if j = i then p' else (g.threads j).pc)
    (hc : (g.threads i).pc.inCrit = true) (hp : p'.inCrit = false) :
    CoordInv g' := by
  have hnone : ∀ j, ¬ crit g' j := by
    intro j hj
    by_cases hji : j = i
    · subst hji
      have := hth j
      rw [if_pos rfl] at this
      simp [crit, this, hp] at hj
    · have := hth j
      rw [if_neg hji] at this
      have hgj : crit g j := by simpa [crit, this] using hj
      exact hji (inv.1 j i hgj hc)
  exact ⟨fun a b ha => absurd ha (hnone a),
         fun a ha => absurd ha (hnone a)⟩

/-- One step of any thread preserves the coordinator invariant. -/
lemma step_coordInv {n : ℕ} (g : Sys n) (i : Fin n) (inv : CoordInv g) :
    CoordInv (step g i) := by
  cases hpc : (g.threads i).pc with
  | start =>
    simp only [step, hpc]
    split
    · exact coordInv_same inv i (.ret true) (fun j => by by_cases hj : j = i <;> simp [setT_threads, Thr.go, hj]) rfl (by simp [hpc, Pc.inCrit])
    · exact coordInv_same inv i (.tryLock) (fun j => by by_cases hj : j = i <;> simp [setT_threads, Thr.go, hj]) rfl (by simp [hpc, Pc.inCrit])
  | tryLock =>
    simp only [step, hpc]
    split
    · exact inv
    · exact coordInv_same inv i (.locked) (fun j => by by_cases hj : j = i <;> simp [setT_threads, Thr.go, hj]) rfl (by simp [hpc, Pc.inCrit])
  | locked =>
    simp only [step, hpc]
    split
    · exact coordInv_same inv i (.ret true) (fun j => by by_cases hj : j = i <;> simp [setT_threads, Thr.go, hj]) rfl (by simp [hpc, Pc.inCrit])
    · exact coordInv_same inv i (.branch) (fun j => by by_cases hj : j = i <;> simp [setT_threads, Thr.go, hj]) rfl (by simp [hpc, Pc.inCrit])
  | branch =>
    simp only [step, hpc]
    cases hls : g.lstate with
    | loading => exact coordInv_same inv i (.waiting) (fun j => by by_cases hj : j = i <;> simp [setT_threads, Thr.go, hj]) rfl (by simp [hpc, Pc.inCrit])
    | done => exact coordInv_same inv i (.ret true) (fun j => by by_cases hj : j = i <;> simp [setT_threads, Thr.go, hj]) rfl (by simp [hpc, Pc.inCrit])
    | idle => exact coordInv_entry inv i (fun j => by by_cases hj : j = i <;> simp [setT_threads, Thr.go, hj]) rfl (by rw [hls]; simp)
    | failed r => exact coordInv_entry inv i (fun j => by by_cases hj : j = i <;> simp [setT_threads, Thr.go, hj]) rfl (by rw [hls]; simp)
  | waiting =>
    simp only [step, hpc]
    split
    · exact inv
    · split
      · exact inv
      · exact coordInv_same inv i (.afterWait) (fun j => by by_cases hj : j = i <;> simp [setT_threads, Thr.go, hj]) rfl (by simp [hpc, Pc.inCrit])
  | afterWait =>
    simp only [step, hpc]
    split
    · exact coordInv_same inv i (.ret true) (fun j => by by_cases hj : j = i <;> simp [setT_threads, Thr.go, hj]) rfl (by simp [hpc, Pc.inCrit])
    · exact coordInv_same inv i (.ret false) (fun j => by by_cases hj : j = i <;> simp [setT_threads, Thr.go, hj]) rfl (by simp [hpc, Pc.inCrit])
  | loadA =>
    simp only [step, hpc]
    cases ho : (g.threads i).outcome with
    | assetErr e => exact coordInv_same inv i (.writeRes false) (fun j => by by_cases hj : j = i <;> simp [setT_threads, Thr.go, hj]) rfl (by simp [hpc, Pc.inCrit])
    | success => exact coordInv_same inv i (.loadB) (fun j => by by_cases hj : j = i <;> simp [setT_threads, Thr.go, hj]) rfl (by simp [hpc, Pc.inCrit])
    | modelErr e => exact coordInv_same inv i (.loadB) (fun j => by by_cases hj : j = i <;> simp [setT_threads, Thr.go, hj]) rfl (by simp [hpc, Pc.inCrit])
  | loadB =>
    simp only [step, hpc]
    cases ho : (g.threads i).outcome with
    | success => exact coordInv_same inv i (.writeRes true) (fun j => by by_cases hj : j = i <;> simp [setT_threads, Thr.go, hj]) rfl (by simp [hpc, Pc.inCrit])
    | assetErr e => exact coordInv_same inv i (.writeRes false) (fun j => by by_cases hj : j = i <;> simp [setT_threads, Thr.go, hj]) rfl (by simp [hpc, Pc.inCrit])
    | modelErr e => exact coordInv_same inv i (.writeRes false) (fun j => by by_cases hj : j = i <;> simp [setT_threads, Thr.go, hj]) rfl (by simp [hpc, Pc.inCrit])
  | writeRes ok =>
    simp only [step, hpc]
    split
    · exact inv
    · exact coordInv_exit inv i (.ret ok) (fun j => by by_cases hj : j = i <;> simp [setT_threads, Thr.go, hj]) (by simp [hpc, Pc.inCrit]) (by simp [Pc.inCrit])
  | ret ok => simpa only [step, hpc] using inv
  | mStart =>
    simp only [step, hpc]
    exact coordInv_same inv i (.mExtract) (fun j => by by_cases hj : j = i <;> simp [setT_threads, Thr.go, hj]) rfl (by simp [hpc, Pc.inCrit])
  | mExtract =>
    simp only [step, hpc]
    cases ho : (g.threads i).outcome with
    | assetErr e => exact coordInv_same inv i (.mRet) (fun j => by by_cases hj : j = i <;> simp [setT_threads, Thr.go, hj]) rfl (by simp [hpc, Pc.inCrit])
    | success => exact coordInv_same inv i (.mCheck) (fun j => by by_cases hj : j = i <;> simp [setT_threads, Thr.go, hj]) rfl (by simp [hpc, Pc.inCrit])
    | modelErr e => exact coordInv_same inv i (.mCheck) (fun j => by by_cases hj : j = i <;> simp [setT_threads, Thr.go, hj]) rfl (by simp [hpc, Pc.inCrit])
  | mCheck =>
    simp only [step, hpc]
    split
    · exact coordInv_same inv i (.mRet) (fun j => by by_cases hj : j = i <;> simp [setT_threads, Thr.go, hj]) rfl (by simp [hpc, Pc.inCrit])
    · exact coordInv_same inv i (.mConstruct) (fun j => by by_cases hj : j = i <;> simp [setT_threads, Thr.go, hj]) rfl (by simp [hpc, Pc.inCrit])
  | mConstruct =>
    simp only [step, hpc]
    cases ho : (g.threads i).outcome with
    | success => exact coordInv_same inv i (.mRet) (fun j => by by_cases hj : j = i <;> simp [setT_threads, Thr.go, hj]) rfl (by simp [hpc, Pc.inCrit])
    | assetErr e => exact coordInv_same inv i (.mRet) (fun j => by by_cases hj : j = i <;> simp [setT_threads, Thr.go, hj]) rfl (by simp [hpc, Pc.inCrit])
    | modelErr e => exact coordInv_same inv i (.mRet) (fun j => by by_cases hj : j = i <;> simp [setT_threads, Thr.go, hj]) rfl (by simp [hpc, Pc.inCrit])
  | mRet => simpa only [step, hpc] using inv

/-- Any scheduler action preserves the coordinator invariant. -/
lemma stepAct_coordInv {n : ℕ} (g : Sys n) (a : Act n) (inv : CoordInv g) :
    CoordInv (stepAct g a) := by
  cases a with
  | go i => exact step_coordInv g i inv
  | tick => exact inv

/-- The updated thread's counter. -/
lemma update_pc_at {n : ℕ} (g : Sys n) (i : Fin n) (t' : Thr) :
    ((g.setT i t').threads i).pc = t'.pc := by
  simp [setT_threads]

/-- Other threads' counters are untouched. -/
lemma update_pc_ne {n : ℕ} (g : Sys n) (i : Fin n) (t' : Thr) {j : Fin n}
    (hj : j ≠ i) : ((g.setT i t').threads j).pc = (g.threads j).pc := by
  simp [setT_threads, hj]

/-- Phase-1 counters are phase-2 counters. -/
lemma phase1_to_phase2 {p : Pc} (h : phase1Pc p) : phase2Pc p := by
  rcases h with h | h | h
  · exact Or.inl h
  · exact Or.inr (Or.inl h)
  · exact Or.inr (Or.inr (Or.inr h))

/-- A step never changes any thread's prescribed load outcome. -/
lemma step_allSucc {n : ℕ} (g : Sys n) (i : Fin n) (h : AllSucc g) :
    AllSucc (step g i) := by
  intro j
  by_cases hj : j = i
  · subst hj
    cases hpc : (g.threads j).pc <;> simp only [step, hpc] <;>
      (repeat' split) <;> simp [setT_threads, Thr.go, h j]
  · cases hpc : (g.threads i).pc <;> simp only [step, hpc] <;>
      (repeat' split) <;> simp [setT_threads, Thr.go, hj, h j]

/-- Pointwise preservation of a counter predicate under a thread update. -/
lemma pcsP {n : ℕ} {P : Pc → Prop} (th : Fin n → Thr) (i : Fin n) (t' : Thr)
    (h : ∀ j, P (th j).pc) (ht : P t'.pc) :
    ∀ j, P ((Function.update th i t' j).pc) := by
  intro j
  by_cases hj : j = i
  · subst hj; rw [Function.update_same]; exact ht
  · rw [Function.update_noteq hj]; exact h j

/-- Pointwise preservation of a counter predicate on threads other than `k`
under an update of thread `i ≠ k`. -/
lemma pcsQ {n : ℕ} {P : Pc → Prop} (th : Fin n → Thr) (i k : Fin n) (t' : Thr)
    (h : ∀ j, j ≠ k → P (th j).pc) (ht : P t'.pc) :
    ∀ j, j ≠ k → P ((Function.update th i t' j).pc) := by
  intro j hj
  by_cases hji : j = i
  · subst hji; rw [Function.update_same]; exact ht
  · rw [Function.update_noteq hji]; exact h j hj

/-- One step of any thread preserves the all-success invariant. -/
lemma step_AS {n : ℕ} (g : Sys n) (i : Fin n) (hsucc : AllSucc g)
    (has : AS g) : AS (step g i) := by
  rcases has with ⟨hld, hls, heng, hpcs⟩ | ⟨hld, hls, k, hk, hoth⟩ |
    ⟨hld, hls, heng, hpcs⟩
  · -- phase 0: nothing claimed yet
    have hne : ¬ (g.engine = true) := by rw [heng]; exact Bool.false_ne_true
    rcases hpcs i with hpc | hpc | hpc | hpc
    · -- start, engine necessarily absent: go take the mutex
      simp only [step, hpc]
      rw [if_neg hne]
      exact Or.inl ⟨hld, hls, heng,
        pcsP g.threads i _ hpcs (Or.inr (Or.inl rfl))⟩
    · -- tryLock
      simp only [step, hpc]
      split
      · exact Or.inl ⟨hld, hls, heng, hpcs⟩
      · exact Or.inl ⟨hld, hls, heng,
          pcsP g.threads i _ hpcs (Or.inr (Or.inr (Or.inl rfl)))⟩
    · -- locked, engine absent: proceed to the match
      simp only [step, hpc]
      rw [if_neg hne]
      exact Or.inl ⟨hld, hls, heng,
        pcsP g.threads i _ hpcs (Or.inr (Or.inr (Or.inr rfl)))⟩
    · -- branch on Idle: the claim step, entering phase 1
      simp only [step, hpc, hls]
      refine Or.inr (Or.inl ⟨?_, rfl, i, Or.inl ⟨Or.inl ?_, heng⟩, ?_⟩)
      · show g.loads + 1 = 1
        rw [hld]
      · simp [Sys.setT, Function.update_same, Thr.go]
      · intro j hj
        show phase1Pc ((Function.update g.threads i _ j).pc)
        rw [Function.update_noteq hj]
        exact Or.inl (hpcs j)
  · -- phase 1: thread k owns the load
    by_cases hik : i = k
    · subst hik
      rcases hk with ⟨hAB, heng⟩ | ⟨hW, heng⟩
      · rcases hAB with hpc | hpc
        · -- the loader runs extraction: loadA -> loadB
          simp only [step, hpc, hsucc i]
          refine Or.inr (Or.inl ⟨hld, hls, i, Or.inl ⟨Or.inr ?_, heng⟩, ?_⟩)
          · simp [Sys.setT, Function.update_same, Thr.go]
          · intro j hj
            show phase1Pc ((Function.update g.threads i _ j).pc)
            rw [Function.update_noteq hj]
            exact hoth j hj
        · -- the loader installs the engine: loadB -> writeRes true
          simp only [step, hpc, hsucc i]
          refine Or.inr (Or.inl ⟨hld, hls, i, Or.inr ⟨?_, rfl⟩, ?_⟩)
          · simp [Sys.setT, Function.update_same, Thr.go]
          · intro j hj
            show phase1Pc ((Function.update g.threads i _ j).pc)
            rw [Function.update_noteq hj]
            exact hoth j hj
      · -- the loader records Done: writeRes -> ret, entering phase 2
        simp only [step, hW]
        split
        · exact Or.inr (Or.inl ⟨hld, hls, i, Or.inr ⟨hW, heng⟩, hoth⟩)
        · refine Or.inr (Or.inr ⟨hld, rfl, heng, ?_⟩)
          intro j
          by_cases hj : j = i
          · subst hj
            show phase2Pc ((Function.update g.threads j _ j).pc)
            rw [Function.update_same]
            exact Or.inr (Or.inr (Or.inr rfl))
          · show phase2Pc ((Function.update g.threads i _ j).pc)
            rw [Function.update_noteq hj]
            exact phase1_to_phase2 (hoth j hj)
    · -- a non-loader thread steps during phase 1
      have hknei : k ≠ i := fun h => hik h.symm
      rcases hoth i hik with hb | hpc | hpc
      · rcases hb with hpc | hpc | hpc | hpc
        · -- start: fast path if the engine is already installed
          simp only [step, hpc]
          split
          · refine Or.inr (Or.inl ⟨hld, hls, k, ?_, pcsQ g.threads i k _ hoth
              (Or.inr (Or.inr rfl))⟩)
            show _
            rw [show ((g.setT i _).threads k) = g.threads k from by
              simp [Sys.setT, Function.update_noteq hknei]]
            exact hk
          · refine Or.inr (Or.inl ⟨hld, hls, k, ?_, pcsQ g.threads i k _ hoth
              (Or.inl (Or.inr (Or.inl rfl)))⟩)
            rw [show ((g.setT i _).threads k) = g.threads k from by
              simp [Sys.setT, Function.update_noteq hknei]]
            exact hk
        · -- tryLock
          simp only [step, hpc]
          split
          · exact Or.inr (Or.inl ⟨hld, hls, k, hk, hoth⟩)
          · refine Or.inr (Or.inl ⟨hld, hls, k, ?_, pcsQ g.threads i k _ hoth
              (Or.inl (Or.inr (Or.inr (Or.inl rfl))))⟩)
            rw [show ((g.setT i _).threads k) = g.threads k from by
              simp [Sys.setT, Function.update_noteq hknei]]
            exact hk
        · -- locked
          simp only [step, hpc]
          split
          · refine Or.inr (Or.inl ⟨hld, hls, k, ?_, pcsQ g.threads i k _ hoth
              (Or.inr (Or.inr rfl))⟩)
            rw [show ((g.setT i _).threads k) = g.threads k from by
              simp [Sys.setT, Function.update_noteq hknei]]
            exact hk
          · refine Or.inr (Or.inl ⟨hld, hls, k, ?_, pcsQ g.threads i k _ hoth
              (Or.inl (Or.inr (Or.inr (Or.inr rfl))))⟩)
            rw [show ((g.setT i _).threads k) = g.threads k from by
              simp [Sys.setT, Function.update_noteq hknei]]
            exact hk
        · -- branch sees Loading: go wait
          simp only [step, hpc, hls]
          refine Or.inr (Or.inl ⟨hld, hls, k, ?_, pcsQ g.threads i k _ hoth
            (Or.inr (Or.inl rfl))⟩)
          rw [show ((g.setT i _).threads k) = g.threads k from by
            simp [Sys.setT, Function.update_noteq hknei]]
          exact hk
      · -- waiting: the state is Loading, keep waiting
        simp only [step, hpc]
        by_cases hlock : g.lock = true
        · rw [if_pos hlock]
          exact Or.inr (Or.inl ⟨hld, hls, k, hk, hoth⟩)
        · rw [if_neg hlock, if_pos hls]
          exact Or.inr (Or.inl ⟨hld, hls, k, hk, hoth⟩)
      · -- ret true: terminated
        simp only [step, hpc]
        exact Or.inr (Or.inl ⟨hld, hls, k, hk, hoth⟩)
  · -- phase 2: load done and recorded
    rcases hpcs i with hb | hpc | hpc | hpc
    · rcases hb with hpc | hpc | hpc | hpc
      · -- start: fast path succeeds
        simp only [step, hpc]
        rw [if_pos heng]
        exact Or.inr (Or.inr ⟨hld, hls, heng,
          pcsP g.threads i _ hpcs (Or.inr (Or.inr (Or.inr rfl)))⟩)
      · -- tryLock
        simp only [step, hpc]
        split
        · exact Or.inr (Or.inr ⟨hld, hls, heng, hpcs⟩)
        · exact Or.inr (Or.inr ⟨hld, hls, heng,
            pcsP g.threads i _ hpcs (Or.inl (Or.inr (Or.inr (Or.inl rfl))))⟩)
      · -- locked: re-check succeeds
        simp only [step, hpc]
        rw [if_pos heng]
        exact Or.inr (Or.inr ⟨hld, hls, heng,
          pcsP g.threads i _ hpcs (Or.inr (Or.inr (Or.inr rfl)))⟩)
      · -- branch sees Done
        simp only [step, hpc, hls]
        exact Or.inr (Or.inr ⟨hld, hls, heng,
          pcsP g.threads i _ hpcs (Or.inr (Or.inr (Or.inr rfl)))⟩)
    · -- waiting: the state is Done, leave the loop
      simp only [step, hpc]
      by_cases hlock : g.lock = true
      · rw [if_pos hlock]
        exact Or.inr (Or.inr ⟨hld, hls, heng, hpcs⟩)
      · rw [if_neg hlock, if_neg (by rw [hls]; simp)]
        exact Or.inr (Or.inr ⟨hld, hls, heng,
          pcsP g.threads i _ hpcs (Or.inr (Or.inr (Or.inl rfl)))⟩)
    · -- afterWait: the engine is there
      simp only [step, hpc]
      rw [if_pos heng]
      exact Or.inr (Or.inr ⟨hld, hls, heng,
        pcsP g.threads i _ hpcs (Or.inr (Or.inr (Or.inr rfl)))⟩)
    · -- ret true
      simp only [step, hpc]
      exact Or.inr (Or.inr ⟨hld, hls, heng, hpcs⟩)

/-- A pre-claim counter is not a return. -/
lemma basicPc_no_ret {p : Pc} (h : basicPc p) (o : Bool) : p ≠ .ret o := by
  rcases h with h | h | h | h <;> subst h <;> simp

/-- A phase-1 non-loader thread that returned, returned success. -/
lemma phase1Pc_ret {p : Pc} (h : phase1Pc p) {o : Bool} (he : p = .ret o) :
    o = true := by
  rcases h with hb | h | h
  · exact absurd he (basicPc_no_ret hb o)
  · rw [h] at he; cases he
  · rw [h] at he
    injection he with h2
    exact h2.symm

/-- A phase-2 thread that returned, returned success. -/
lemma phase2Pc_ret {p : Pc} (h : phase2Pc p) {o : Bool} (he : p = .ret o) :
    o = true := by
  rcases h with hb | h | h | h
  · exact absurd he (basicPc_no_ret hb o)
  · rw [h] at he; cases he
  · rw [h] at he; cases he
  · rw [h] at he
    injection he with h2
    exact h2.symm

/-- Under the all-success invariant, nobody returns an error. -/
lemma AS_ret_true {n : ℕ} {g : Sys n} (has : AS g) (i : Fin n) (o : Bool)
    (h : (g.threads i).pc = .ret o) : o = true := by
  rcases has with ⟨_, _, _, hpcs⟩ | ⟨_, _, k, hk, hoth⟩ | ⟨_, _, _, hpcs⟩
  · exact absurd h (basicPc_no_ret (hpcs i) o)
  · by_cases hik : i = k
    · subst hik
      rcases hk with ⟨hAB, _⟩ | ⟨hW, _⟩
      · rcases hAB with h1 | h1 <;> rw [h] at h1 <;> cases h1
      · rw [h] at hW; cases hW
    · exact phase1Pc_ret (hoth i hik) h
  · exact phase2Pc_ret (hpcs i) h

/-- Under the all-success invariant, `do_load` was entered at most once. -/
lemma AS_loads_le_one {n : ℕ} {g : Sys n} (has : AS g) : g.loads ≤ 1 := by
  rcases has with ⟨hld, _⟩ | ⟨hld, _⟩ | ⟨hld, _⟩ <;> rw [hld] <;> decide

/-- Under the all-success invariant, if every thread terminated (and there
is at least one), `do_load` ran exactly once. -/
lemma AS_terminal_loads_one {n : ℕ} {g : Sys n} (has : AS g)
    (hterm : ∀ i : Fin n, ∃ o, (g.threads i).pc = .ret o) (hn : 0 < n) :
    g.loads = 1 := by
  rcases has with ⟨_, _, _, hpcs⟩ | ⟨_, _, k, hk, _⟩ | ⟨hld, _⟩
  · obtain ⟨o, ho⟩ := hterm ⟨0, hn⟩
    exact absurd ho (basicPc_no_ret (hpcs ⟨0, hn⟩) o)
  · obtain ⟨o, ho⟩ := hterm k
    rcases hk with ⟨hAB, _⟩ | ⟨hW, _⟩
    · rcases hAB with h1 | h1 <;> rw [ho] at h1 <;> cases h1
    · rw [ho] at hW; cases hW
  · exact hld

/-- Any scheduler action preserves all-success plus its invariant. -/
lemma stepAct_AS {n : ℕ} (g : Sys n) (a : Act n)
    (h : AllSucc g ∧ AS g) :
    AllSucc (stepAct g a) ∧ AS (stepAct g a) := by
  cases a with
  | go i => exact ⟨step_allSucc g i h.1, step_AS g i h.1 h.2⟩
  | tick =>
    refine ⟨fun j => h.1 j, ?_⟩
    rcases h.2 with ⟨a1, a2, a3, a4⟩ | ⟨a1, a2, k, hk, ho⟩ | ⟨a1, a2, a3, a4⟩
    · exact Or.inl ⟨a1, a2, a3, a4⟩
    · exact Or.inr (Or.inl ⟨a1, a2, k, hk, ho⟩)
    · exact Or.inr (Or.inr ⟨a1, a2, a3, a4⟩)

/-- The `do_load` counters are critical-span counters. -/
lemma inDoLoad_inCrit {p : Pc} (h : p.inDoLoad = true) : p.inCrit = true := by
  cases p <;> simp_all [Pc.inDoLoad, Pc.inCrit]

/-- C1, amended.  Among `ensure_loaded` callers the coordinator is
single-flight: after any schedule, at most one thread is inside `do_load`
(mutual exclusion holds at every prefix, every prefix being itself a
schedule); and when every caller's load would succeed, no caller ever
returns an error, `do_load` is entered at most once, and once every caller
has returned (and there is at least one), `do_load` ran exactly once.  The
original claim's process-wide reading fails: the MainActivity / IME
`initNative` loaders bypass this coordination, and after a FAILED load a
delayed caller that started while `Idle` re-runs the load — see
`c1_counterexample`. -/
theorem c1_ensure_loaded_single_flight
    (n : ℕ) (outs : Fin n → LoadOutcome) (sched : List (Act n)) :
    (∀ i j : Fin n,
        ((runSys (initSys n (fun _ => .start) outs) sched).threads i).pc.inDoLoad
            = true →
        ((runSys (initSys n (fun _ => .start) outs) sched).threads j).pc.inDoLoad
            = true →
        i = j)
    ∧ ((∀ i, outs i = .success) →
        (∀ (i : Fin n) (o : Bool),
            ((runSys (initSys n (fun _ => .start) outs) sched).threads i).pc
                = .ret o → o = true)
        ∧ (runSys (initSys n (fun _ => .start) outs) sched).loads ≤ 1
        ∧ ((∀ i : Fin n, ∃ o,
              ((runSys (initSys n (fun _ => .start) outs) sched).threads i).pc
                  = .ret o) →
            0 < n →
            (runSys (initSys n (fun _ => .start) outs) sched).loads = 1)) := by
  have hinit : CoordInv (initSys n (fun _ => .start) outs) := by
    constructor
    · intro i j hi _
      exfalso
      simpa [crit, initSys, Pc.inCrit] using hi
    · intro i hi
      exfalso
      simpa [crit, initSys, Pc.inCrit] using hi
  have hcoord : CoordInv (runSys (initSys n (fun _ => .start) outs) sched) :=
    runSys_preserve (fun g a hg => stepAct_coordInv g a hg) sched _ hinit
  constructor
  · intro i j hi hj
    exact hcoord.1 i j (inDoLoad_inCrit hi) (inDoLoad_inCrit hj)
  · intro hall
    have hinitAS : AllSucc (initSys n (fun _ => .start) outs)
        ∧ AS (initSys n (fun _ => .start) outs) := by
      refine ⟨fun i => hall i, Or.inl ⟨rfl, rfl, rfl, fun i => Or.inl rfl⟩⟩
    have hAS := runSys_preserve stepAct_AS sched _ hinitAS
    exact ⟨AS_ret_true hAS.2, AS_loads_le_one hAS.2,
           fun hterm hn => AS_terminal_loads_one hAS.2 hterm hn⟩

/-- Witness for `c1_ensure_loaded_single_flight`: two successful callers,
run to completion; the load ran exactly once. -/
theorem c1_single_flight_witness :
    (runSys twoOkInit twoOkSched).loads = 1 :=
  ((c1_ensure_loaded_single_flight 2 (fun _ => .success) twoOkSched).2
    (fun _ => rfl)).2.2 (by decide) (by decide)

set_option maxRecDepth 8000 in
/-- C1, counterexample, two concrete executions.  First: an `ensure_loaded`
caller (thread 0) and the MainActivity `initNative` loader (thread 1) are
simultaneously inside the model-load procedure — thread 0 between asset
extraction and model load inside `do_load`, thread 1 about to construct the
engine, with no coordination between them.  Second: two `ensure_loaded`
callers both starting while `LOAD_STATE` is `Idle`; thread 0's load fails,
thread 1 then observes `Failed`, claims again and loads successfully:
`do_load` runs twice and the callers observe different outcomes. -/
theorem c1_counterexample :
    (((runSys mixedInit mixedSched).threads 0).pc.inLoadProc = true
      ∧ ((runSys mixedInit mixedSched).threads 1).pc.inLoadProc = true
      ∧ (0 : Fin 2) ≠ 1)
    ∧ ((runSys retryInit retrySched).loads = 2
      ∧ ((runSys retryInit retrySched).threads 0).pc = .ret false
      ∧ ((runSys retryInit retrySched).threads 1).pc = .ret true) := by
  decide

/-- Threads other than the stepped one are untouched. -/
lemma step_threads_ne {n : ℕ} (g : Sys n) (i : Fin n) {j : Fin n}
    (hj : j ≠ i) : (step g i).threads j = g.threads j := by
  cases hpc : (g.threads i).pc <;> simp only [step, hpc] <;>
    (repeat' split) <;> simp [setT_threads, hj]

/-- The `Failed r` / `Idle` coupling is preserved by every scheduler
action: `ensure_loaded` treats the two states identically (the `match` arm
is shared, and the condvar re-check distinguishes only `Loading`). -/
lemma stepAct_failedIdle {n : ℕ} (r : String) :
    ∀ (a b : Sys n) (act : Act n), FailedIdleRel r a b →
      FailedIdleRel r (stepAct a act) (stepAct b act) := by
  intro a b act h
  obtain ⟨⟨he, hk, ho, ht, hth⟩, hl⟩ := h
  cases a with
  | mk ae als alk alo ati ath =>
    cases b with
    | mk be bls blk blo bti bth =>
      dsimp only at he hk ho ht hth hl
      subst he
      subst hk
      subst ho
      subst ht
      subst hth
      rcases hl with hl | ⟨hf, hi⟩
      · subst hl
        exact ⟨⟨rfl, rfl, rfl, rfl, rfl⟩, Or.inl rfl⟩
      · subst hf
        subst hi
        cases act with
        | tick => exact ⟨⟨rfl, rfl, rfl, rfl, rfl⟩, Or.inr ⟨rfl, rfl⟩⟩
        | go i =>
          cases hpc : (ath i).pc <;> cases ho2 : (ath i).outcome <;>
            cases ae <;> cases alk <;>
            simp only [stepAct, step, hpc, ho2] <;>
            first
              | exact ⟨⟨rfl, rfl, rfl, rfl, rfl⟩, Or.inr ⟨rfl, rfl⟩⟩
              | exact ⟨⟨rfl, rfl, rfl, rfl, rfl⟩, Or.inl rfl⟩

/-- C5.  At the coordinator's `match`, `Failed` is handled exactly like
`Idle`: the observing thread claims `Loading` itself and enters `do_load`
(first conjunct); `Done`, by contrast, returns success with no load (second
conjunct); and a whole system started in `Failed r` behaves observably
identically — same engine flag, lock, load count, time, and every thread's
counter, outcome and notification log — to the same system started in
`Idle`, under every schedule (third conjunct).  In particular a `Failed`
state is never treated like `Done`. -/
theorem c5_failed_like_idle :
    (∀ (n : ℕ) (g : Sys n) (i : Fin n) (r : String),
      (g.threads i).pc = .branch → g.lstate = .failed r →
      (step g i).lstate = .loading
      ∧ ((step g i).threads i).pc = .loadA
      ∧ (step g i).loads = g.loads + 1)
    ∧ (∀ (n : ℕ) (g : Sys n) (i : Fin n),
      (g.threads i).pc = .branch → g.lstate = .done →
      (step g i).lstate = .done
      ∧ ((step g i).threads i).pc = .ret true
      ∧ (step g i).loads = g.loads)
    ∧ (∀ (n : ℕ) (g : Sys n) (r : String) (sched : List (Act n)),
      SameObs (runSys { g with lstate := LoadState.failed r } sched)
              (runSys { g with lstate := LoadState.idle } sched)) := by
  refine ⟨?_, ?_, ?_⟩
  · intro n g i r hpc hls
    refine ⟨?_, ?_, ?_⟩ <;>
      simp [step, hpc, hls, Sys.setT, Function.update_same, Thr.go]
  · intro n g i hpc hls
    refine ⟨?_, ?_, ?_⟩ <;>
      simp [step, hpc, hls, Sys.setT, Function.update_same, Thr.go]
  · intro n g r sched
    have h := runSys_rel (stepAct_failedIdle r) sched
      { g with lstate := LoadState.failed r } { g with lstate := LoadState.idle }
      ⟨⟨rfl, rfl, rfl, rfl, rfl⟩, Or.inr ⟨rfl, rfl⟩⟩
    exact h.1

/-- Witness for `c5_failed_like_idle`: a single caller at the `match` with
the state `Failed "m"` claims and loads; and the one-step runs from
`Failed "m"` and from `Idle` coincide observably. -/
theorem c5_failed_like_idle_witness :
    (step (⟨false, .failed "m", false, 0, 0,
        fun _ => ⟨.branch, .success, []⟩⟩ : Sys 1) 0).lstate = .loading
    ∧ ((step (⟨false, .failed "m", false, 0, 0,
        fun _ => ⟨.branch, .success, []⟩⟩ : Sys 1) 0).threads 0).pc = .loadA
    ∧ SameObs
        (runSys { (⟨false, .idle, false, 0, 0,
            fun _ => ⟨.branch, .success, []⟩⟩ : Sys 1) with
              lstate := LoadState.failed "m" } [.go 0])
        (runSys { (⟨false, .idle, false, 0, 0,
            fun _ => ⟨.branch, .success, []⟩⟩ : Sys 1) with
              lstate := LoadState.idle } [.go 0]) := by
  refine ⟨?_, ?_, ?_⟩
  · exact (c5_failed_like_idle.1 1 _ 0 "m" rfl rfl).1
  · exact (c5_failed_like_idle.1 1 _ 0 "m" rfl rfl).2.1
  · exact c5_failed_like_idle.2.2 1 _ "m" [.go 0]

/-- The `errCount` computation rules, one per message constructor. -/
lemma errCount_nil : errCount [] = 0 := rfl

/-- A `Ready` notification is not an error. -/
lemma errCount_ready (l : List Msg) : errCount (Msg.ready :: l) = errCount l := rfl

/-- A `Waiting for model...` notification is not an error. -/
lemma errCount_waitingForModel (l : List Msg) :
    errCount (Msg.waitingForModel :: l) = errCount l := rfl

/-- A `Checking assets...` notification is not an error. -/
lemma errCount_checkingAssets (l : List Msg) :
    errCount (Msg.checkingAssets :: l) = errCount l := rfl

/-- A `Loading model...` notification is not an error. -/
lemma errCount_loadingModel (l : List Msg) :
    errCount (Msg.loadingModel :: l) = errCount l := rfl

/-- A plain status notification is not an error. -/
lemma errCount_statusOther (m : String) (l : List Msg) :
    errCount (Msg.statusOther m :: l) = errCount l := rfl

/-- An `Error: ...` notification counts. -/
lemma errCount_error (d : String) (l : List Msg) :
    errCount (Msg.errorStatus d :: l) = errCount l + 1 := by
  simp [errCount, List.filter_cons]

/-- One step of any thread preserves the error-notification accounting. -/
lemma step_errInv {n : ℕ} (g : Sys n) (i : Fin n) (inv : ErrInv g) :
    ErrInv (step g i) := by
  intro j
  by_cases hj : j = i
  · subst hj
    have hI := inv j
    cases hpc : (g.threads j).pc with
    | ret ok => simpa only [step, hpc] using inv j
    | writeRes ok =>
      rw [hpc] at hI
      simp only [step, hpc]
      split
      · exact inv j
      · cases ok <;>
          simp_all [setT_threads, Thr.go, errCount_append, errCount_nil,
            pcErr]
    | start =>
      rw [hpc] at hI
      simp only [pcErr] at hI
      simp only [step, hpc]
      (repeat' split) <;>
        simp [setT_threads, Thr.go, errCount_append, errCount_nil,
          errCount_ready, errCount_waitingForModel, errCount_checkingAssets,
          errCount_loadingModel, errCount_statusOther, errCount_error,
          pcErr, hI, hpc]
    | tryLock =>
      rw [hpc] at hI
      simp only [pcErr] at hI
      simp only [step, hpc]
      (repeat' split) <;>
        simp [setT_threads, Thr.go, errCount_append, errCount_nil,
          errCount_ready, errCount_waitingForModel, errCount_checkingAssets,
          errCount_loadingModel, errCount_statusOther, errCount_error,
          pcErr, hI, hpc]
    | locked =>
      rw [hpc] at hI
      simp only [pcErr] at hI
      simp only [step, hpc]
      (repeat' split) <;>
        simp [setT_threads, Thr.go, errCount_append, errCount_nil,
          errCount_ready, errCount_waitingForModel, errCount_checkingAssets,
          errCount_loadingModel, errCount_statusOther, errCount_error,
          pcErr, hI, hpc]
    | branch =>
      rw [hpc] at hI
      simp only [pcErr] at hI
      simp only [step, hpc]
      (repeat' split) <;>
        simp [setT_threads, Thr.go, errCount_append, errCount_nil,
          errCount_ready, errCount_waitingForModel, errCount_checkingAssets,
          errCount_loadingModel, errCount_statusOther, errCount_error,
          pcErr, hI, hpc]
    | waiting =>
      rw [hpc] at hI
      simp only [pcErr] at hI
      simp only [step, hpc]
      (repeat' split) <;>
        simp [setT_threads, Thr.go, errCount_append, errCount_nil,
          errCount_ready, errCount_waitingForModel, errCount_checkingAssets,
          errCount_loadingModel, errCount_statusOther, errCount_error,
          pcErr, hI, hpc]
    | afterWait =>
      rw [hpc] at hI
      simp only [pcErr] at hI
      simp only [step, hpc]
      (repeat' split) <;>
        simp [setT_threads, Thr.go, errCount_append, errCount_nil,
          errCount_ready, errCount_waitingForModel, errCount_checkingAssets,
          errCount_loadingModel, errCount_statusOther, errCount_error,
          pcErr, hI, hpc]
    | loadA =>
      rw [hpc] at hI
      simp only [pcErr] at hI
      simp only [step, hpc]
      (repeat' split) <;>
        simp [setT_threads, Thr.go, errCount_append, errCount_nil,
          errCount_ready, errCount_waitingForModel, errCount_checkingAssets,
          errCount_loadingModel, errCount_statusOther, errCount_error,
          pcErr, hI, hpc]
    | loadB =>
      rw [hpc] at hI
      simp only [pcErr] at hI
      simp only [step, hpc]
      (repeat' split) <;>
        simp [setT_threads, Thr.go, errCount_append, errCount_nil,
          errCount_ready, errCount_waitingForModel, errCount_checkingAssets,
          errCount_loadingModel, errCount_statusOther, errCount_error,
          pcErr, hI, hpc]
    | mStart =>
      rw [hpc] at hI
      simp only [pcErr] at hI
      simp only [step, hpc]
      (repeat' split) <;>
        simp [setT_threads, Thr.go, errCount_append, errCount_nil,
          errCount_ready, errCount_waitingForModel, errCount_checkingAssets,
          errCount_loadingModel, errCount_statusOther, errCount_error,
          pcErr, hI, hpc]
    | mExtract =>
      rw [hpc] at hI
      simp only [pcErr] at hI
      simp only [step, hpc]
      (repeat' split) <;>
        simp [setT_threads, Thr.go, errCount_append, errCount_nil,
          errCount_ready, errCount_waitingForModel, errCount_checkingAssets,
          errCount_loadingModel, errCount_statusOther, errCount_error,
          pcErr, hI, hpc]
    | mCheck =>
      rw [hpc] at hI
      simp only [pcErr] at hI
      simp only [step, hpc]
      (repeat' split) <;>
        simp [setT_threads, Thr.go, errCount_append, errCount_nil,
          errCount_ready, errCount_waitingForModel, errCount_checkingAssets,
          errCount_loadingModel, errCount_statusOther, errCount_error,
          pcErr, hI, hpc]
    | mConstruct =>
      rw [hpc] at hI
      simp only [pcErr] at hI
      simp only [step, hpc]
      (repeat' split) <;>
        simp [setT_threads, Thr.go, errCount_append, errCount_nil,
          errCount_ready, errCount_waitingForModel, errCount_checkingAssets,
          errCount_loadingModel, errCount_statusOther, errCount_error,
          pcErr, hI, hpc]
    | mRet =>
      rw [hpc] at hI
      simp only [pcErr] at hI
      simp only [step, hpc]
      (repeat' split) <;>
        simp [setT_threads, Thr.go, errCount_append, errCount_nil,
          errCount_ready, errCount_waitingForModel, errCount_checkingAssets,
          errCount_loadingModel, errCount_statusOther, errCount_error,
          pcErr, hI, hpc]
  · show errCount ((step g i).threads j).log = pcErr ((step g i).threads j).pc
    rw [step_threads_ne g i hj]
    exact inv j

/-- C7.  In the coordinator model, every caller (loader or waiter) that
fails ends with exactly one `status("Error: ...")` notification on its own
callback object — never zero — and every caller that succeeds ends with
none, across any number of threads and any schedule (each caller notifies
its own context; the fan-out therefore produces exactly one error per
failed caller and none elsewhere for the same root cause). -/
theorem c7_every_failure_one_error
    (n : ℕ) (pcs : Fin n → Pc) (outs : Fin n → LoadOutcome)
    (sched : List (Act n))
    (hstart : ∀ i, pcs i = .start ∨ pcs i = .mStart) :
    ∀ i : Fin n,
      (((runSys (initSys n pcs outs) sched).threads i).pc = .ret false →
        errCount ((runSys (initSys n pcs outs) sched).threads i).log = 1)
      ∧ (((runSys (initSys n pcs outs) sched).threads i).pc = .ret true →
        errCount ((runSys (initSys n pcs outs) sched).threads i).log = 0) := by
  have hinit : ErrInv (initSys n pcs outs) := by
    intro i
    rcases hstart i with h | h <;> simp [initSys, errCount, h, pcErr]
  have hinv : ErrInv (runSys (initSys n pcs outs) sched) := by
    refine runSys_preserve (fun g a hg => ?_) sched _ hinit
    cases a with
    | go i => exact step_errInv g i hg
    | tick => exact hg
  intro i
  constructor
  · intro h
    have hc := hinv i
    rw [h] at hc
    simpa [pcErr] using hc
  · intro h
    have hc := hinv i
    rw [h] at hc
    simpa [pcErr] using hc

/-- Witness for `c7_every_failure_one_error`: a single caller whose asset
extraction fails ends with exactly one error notification. -/
theorem c7_one_error_witness :
    errCount ((runSys oneFailInit oneFailSched).threads 0).log = 1 :=
  (c7_every_failure_one_error 1 (fun _ => .start) (fun _ => .assetErr "boom")
    oneFailSched (fun _ => Or.inl rfl) 0).1 (by decide)

end Transcribe
